import Mathlib

/-!
# Verification of tinysh (src/tinysh.c)

A shallow embedding of the tiny shell's command parser, job table and
session-loop control flow, with proofs of the specified properties.

Strings are modelled as `List Char` (the C code works on NUL-terminated
`char` buffers).  The shell's own process identifier enters the program
only through `sprintf(pidString, "%s%ld", token, (long) getpid())`, so the
model is parameterised by `pidChars`, the decimal rendering of the pid.
-/

namespace Tinysh

/-- `strtok(userInput, " ")` splits a line at runs of spaces, producing the
non-empty tokens in order (mirrors repeated `strtok` calls in
`parseCommand`, src/tinysh.c lines 169 and 196). -/
def tokenizeAux (cur : List Char) : List Char → List (List Char)
  | [] => if cur.isEmpty then [] else [cur.reverse]
  | c :: rest =>
    if c = ' ' then
      if cur.isEmpty then tokenizeAux [] rest
      else cur.reverse :: tokenizeAux [] rest
    else tokenizeAux (c :: cur) rest

/-- Whitespace-split token list of a line. -/
def tokenize (line : List Char) : List (List Char) :=
  tokenizeAux [] line

/-- `strstr(token, "$$")`: if the token contains the two-character marker
`$$`, return the prefix strictly before its first occurrence
(src/tinysh.c lines 172 and 178: the code truncates the token at that
position), otherwise `none`. -/
def findMarker : List Char → Option (List Char)
  | [] => none
  | [_] => none
  | c :: d :: rest =>
    if c = '$' ∧ d = '$' then some []
    else (findMarker (d :: rest)).map (fun p => c :: p)

/-- An entry of the `args` array: either a pointer into the input line
(a token stored verbatim) or a pointer to the single global `pidString`
scratch buffer (src/tinysh.c line 180: `args[argCount] = pidString`). -/
inductive ArgRef
  | str (t : List Char)
  | pidBuf
deriving DecidableEq, Repr

/-- Dereference an `args` entry once parsing is finished: a `pidBuf`
entry denotes whatever the global `pidString` buffer holds at that time. -/
def resolveRef (pidString : List Char) : ArgRef → List Char
  | .str t => t
  | .pidBuf => pidString

/-- The parser's accumulated state: the `args` entries written so far
(`argCount` is always its length), the two `redir` slots, and the content
of the global `pidString` buffer. -/
structure ParseAcc where
  args : List ArgRef
  redirIn : Option (List Char)
  redirOut : Option (List Char)
  pidString : List Char
deriving DecidableEq, Repr

/-- State on entry to `parseCommand`: no args written, `redir` slots NULL
(`scrubIO`), `pidString` zeroed (`cleanup` memsets it, and it is zero at
startup). -/
def initAcc : ParseAcc := ⟨[], none, none, []⟩

/-- The token loop of `parseCommand` (src/tinysh.c lines 171-197).
For each token: a token containing `$$` is truncated at the marker and the
shared `pidString` buffer is overwritten with prefix ++ pid; a `<` or `>`
token consumes the following token (if any) as the redirection target,
overwriting the corresponding `redir` slot (with NULL when no token
follows); any other token is appended to `args` verbatim. -/
def parseLoop (pidChars : List Char) : List (List Char) → ParseAcc → ParseAcc
  | [], acc => acc
  | t :: rest, acc =>
    if (findMarker t).isSome then
      parseLoop pidChars rest
        { acc with args := acc.args ++ [ArgRef.pidBuf],
                   pidString := (findMarker t).getD [] ++ pidChars }
    else if t = ['<'] then
      match rest with
      | [] => { acc with redirIn := none }
      | r :: rest2 => parseLoop pidChars rest2 { acc with redirIn := some r }
    else if t = ['>'] then
      match rest with
      | [] => { acc with redirOut := none }
      | r :: rest2 => parseLoop pidChars rest2 { acc with redirOut := some r }
    else
      parseLoop pidChars rest { acc with args := acc.args ++ [ArgRef.str t] }

/-- Result of `parseCommand`: the surviving `args` entries (after the
possible removal of a trailing `&`), the returned `argCount` (NOT
decremented when `&` is stripped, exactly as in the C code), the two
redirection slots, the final `pidString` content and the `background`
flag. -/
structure ParseResult where
  argRefs : List ArgRef
  argCount : Nat
  redirIn : Option (List Char)
  redirOut : Option (List Char)
  pidString : List Char
  background : Bool
deriving DecidableEq, Repr

/-- The argument list as the dispatch step sees it: each entry
dereferenced through the final `pidString` content. -/
def ParseResult.args (r : ParseResult) : List (List Char) :=
  r.argRefs.map (resolveRef r.pidString)

/-- `parseCommand` (src/tinysh.c lines 167-208).  After the token loop it
evaluates `strcmp(args[argCount - 1], "&")`: when `argCount = 0` this
reads `args[-1]`, out of bounds — modelled as `none`.  Otherwise, if the
last argument dereferences to `&`, it is removed (always) and, when
background execution is allowed (`!disallow_background`), the global
`background` flag is set (src/tinysh.c lines 200-205). -/
def parseCommand (pidChars : List Char) (disallow background0 : Bool)
    (tokens : List (List Char)) : Option ParseResult :=
  let acc := parseLoop pidChars tokens initAcc
  match acc.args.getLast? with
  | none => none
  | some lastA =>
    if resolveRef acc.pidString lastA = ['&'] then
      some { argRefs := acc.args.dropLast, argCount := acc.args.length,
             redirIn := acc.redirIn, redirOut := acc.redirOut,
             pidString := acc.pidString,
             background := background0 || !disallow }
    else
      some { argRefs := acc.args, argCount := acc.args.length,
             redirIn := acc.redirIn, redirOut := acc.redirOut,
             pidString := acc.pidString, background := background0 }

/-- The acceptance test of `getCommand` (src/tinysh.c line 110) on the
line with its trailing newline already removed: `numChars > 1` means the
stripped line is non-empty, and its first character must not be `#`. -/
def acceptedLine : List Char → Bool
  | [] => false
  | c :: _ => c != '#'

/-- `BGPID_ARR_SIZE` (src/tinysh.c line 20): capacity of the array of
background process identifiers. -/
def BGPID_ARR_SIZE : Nat := 20

/-- A child's termination disposition as decoded from the `waitpid`
status word: `WIFEXITED`/`WEXITSTATUS` or `WTERMSIG`. -/
inductive Disposition
  | exited (code : Nat)
  | signaled (sig : Nat)
deriving DecidableEq, Repr

/-- One line printed by `resolveBGPID` for a finished background process:
its pid and its disposition. -/
structure Report where
  pid : Nat
  disp : Disposition
deriving DecidableEq, Repr

/-- `placePID` (src/tinysh.c lines 121-134): put the pid in the first
slot holding `0`; when no slot is free the C code prints a diagnostic and
`exit(1)`s the whole shell — modelled as `none`. -/
def placePID : List Nat → Nat → Option (List Nat)
  | [], _ => none
  | x :: rest, p =>
    if x = 0 then some (p :: rest)
    else (placePID rest p).map (fun t => x :: t)

/-- `scrubPIDArray` (src/tinysh.c lines 140-145): set every slot to `0`,
the empty marker. -/
def scrubPIDArray (t : List Nat) : List Nat := t.map (fun _ => 0)

/-- `resolveBGPID` (src/tinysh.c lines 75-92).  `done` is the `waitpid
(..., WNOHANG)` oracle: `some d` when the process has completed with
disposition `d`, `none` when it is still running.  Every non-empty slot
whose process completed is reported (in slot order) and zeroed; empty
slots are skipped entirely. -/
def resolveBGPID (done : Nat → Option Disposition) : List Nat → List Nat × List Report
  | [] => ([], [])
  | p :: rest =>
    let pr := resolveBGPID done rest
    if p = 0 then (p :: pr.1, pr.2)
    else
      match done p with
      | some d => (0 :: pr.1, ⟨p, d⟩ :: pr.2)
      | none => (p :: pr.1, pr.2)

/-- `n` successive reconciliation passes, collecting all reports. -/
def reconcileN (done : Nat → Option Disposition) : Nat → List Nat → List Nat × List Report
  | 0, t => (t, [])
  | n + 1, t =>
    let pr := resolveBGPID done t
    let qr := reconcileN done n pr.1
    (qr.1, pr.2 ++ qr.2)

/-- Index of the first slot holding `0`, if any (the slot `placePID`
fills). -/
def firstZero : List Nat → Option Nat
  | [] => none
  | x :: rest =>
    if x = 0 then some 0 else (firstZero rest).map (fun i => i + 1)

/-- Observable events of one `getCommand` cycle (src/tinysh.c lines
101-106): the mode-change notice printed by `backgroundInform`, the
completion reports printed by `resolveBGPID`, the `": "` prompt, and the
`getline` call. -/
inductive Ev
  | notice (enteringFgOnly : Bool)
  | report (pid : Nat) (d : Disposition)
  | prompt
  | readAttempt
deriving DecidableEq, Repr

/-- `backgroundInform` (src/tinysh.c lines 60-69): when the
`background_inform` flag is set, print one notice whose text depends on
`disallow_background`; the flag is cleared afterwards in either case. -/
def backgroundInformEv (inform disallow : Bool) : List Ev :=
  if inform then [Ev.notice disallow] else []

/-- The events of one iteration of the `getCommand` loop, in program
order: `backgroundInform()`, then `resolveBGPID(...)` reports, then the
prompt, then the read (src/tinysh.c lines 102-106). -/
def cycleEvents (done : Nat → Option Disposition) (inform disallow : Bool)
    (table : List Nat) : List Ev :=
  backgroundInformEv inform disallow
    ++ ((resolveBGPID done table).2.map (fun rp => Ev.report rp.pid rp.disp))
    ++ [Ev.prompt, Ev.readAttempt]

/-- Output of the modelled `getCommand` loop: the full event trace, the
job-table state in force at each displayed prompt, the final table, and
the accepted line if one was read. -/
structure GetCmdOut where
  trace : List Ev
  promptTables : List (List Nat)
  table : List Nat
  accepted : Option (List Char)
deriving Repr

/-- The `getCommand` loop (src/tinysh.c lines 101-113) over a list of
read outcomes (`none` models a failed `getline`, which is retried after
`clearerr`; `some line` a line with its newline already stripped).  Each
iteration first runs `backgroundInform` and `resolveBGPID`, then prompts
and reads; a line failing the acceptance test loops again. -/
def getCommandLoop (done : Nat → Option Disposition) (disallow : Bool) :
    List (Option (List Char)) → Bool → List Nat → GetCmdOut
  | [], _, table => ⟨[], [], table, none⟩
  | r :: rest, inform, table =>
    let evs := cycleEvents done inform disallow table
    let t2 := (resolveBGPID done table).1
    match r with
    | some line =>
      if acceptedLine line then ⟨evs, [t2], t2, some line⟩
      else
        let o := getCommandLoop done disallow rest false t2
        ⟨evs ++ o.trace, t2 :: o.promptTables, o.table, o.accepted⟩
    | none =>
      let o := getCommandLoop done disallow rest false t2
      ⟨evs ++ o.trace, t2 :: o.promptTables, o.table, o.accepted⟩

/-- `x` occurs in the trace strictly before any `y`, and a `y` does occur
later. -/
def occursBefore (x y : Ev) : List Ev → Bool
  | [] => false
  | e :: rest =>
    if e = x then decide (y ∈ rest)
    else if e = y then false
    else occursBefore x y rest

/-- `statusShell` ends with `background = 0` (src/tinysh.c line 245). -/
def statusShellBG (_bg : Bool) : Bool := false

/-- `cdShell` ends with `background = 0` (src/tinysh.c line 266). -/
def cdShellBG (_bg : Bool) : Bool := false

/-- `execParent` never writes the `background` flag (src/tinysh.c lines
322-335). -/
def execParentBG (bg : Bool) : Bool := bg

/-- `cleanup` sets `background = 0` (src/tinysh.c line 362). -/
def cleanupBG (_bg : Bool) : Bool := false

/-- Effect of the dispatch step (src/tinysh.c lines 402-427) on the
`background` flag, given `args[0]`: `exit` leaves the loop (`none`); the
other three paths run their handler and then `cleanup`, producing the
flag value at the next iteration. -/
def dispatchBG (a0 : List Char) (bg : Bool) : Option Bool :=
  if a0 = "exit".data then none
  else if a0 = "status".data then some (cleanupBG (statusShellBG bg))
  else if a0 = "cd".data then some (cleanupBG (cdShellBG bg))
  else some (cleanupBG (execParentBG bg))

/-- The `background` flag observed at each `parseCommand` call of the
session loop.  Each accepted line carries the `disallow_background` value
in force when it is parsed (the SIGTSTP handler may toggle it between
commands).  The run stops at `exit`, or at the undefined behaviour the
code reaches when a line parses to zero arguments (`parseCommand` reads
`args[-1]`, and the dispatch would read `args[0] = NULL`). -/
def bgAtParses (pidChars : List Char) :
    List (Bool × List (List Char)) → Bool → List Bool
  | [], _ => []
  | (dis, tokens) :: rest, bg =>
    bg ::
      match parseCommand pidChars dis bg tokens with
      | none => []
      | some r =>
        match r.args.head? with
        | none => []
        | some a0 =>
          match dispatchBG a0 r.background with
          | none => []
          | some bg2 => bgAtParses pidChars rest bg2

end Tinysh

namespace Tinysh

example : tokenize ("echo hi$$there".data) = ["echo".data, "hi$$there".data] := by decide
example : findMarker ("hi$$there".data) = some ("hi".data) := by decide
example : parseCommand ['4','2'] false false (tokenize ("cat <".data)) =
    some ⟨[ArgRef.str "cat".data], 1, none, none, [], false⟩ := by decide
example : parseCommand ['4','2'] false false (tokenize ("<".data)) = none := by decide
example : (parseCommand ['4','2'] false false (tokenize ("sleep 5 &".data))).map
    ParseResult.args = some ["sleep".data, ['5']] := by decide
example : placePID [3, 0, 7] 9 = some [3, 9, 7] := by decide
example : placePID [3, 5, 7] 9 = none := by decide
example : reconcileN (fun _ => none) 3 [0, 0] = ([0, 0], []) := by decide
example : resolveBGPID (fun p => if p = 7 then some (.exited 0) else none) [7, 0, 9] =
    ([0, 0, 9], [⟨7, .exited 0⟩]) := by decide
example : bgAtParses ['4','2'] [(false, tokenize ("sleep 5 &".data)),
    (true, tokenize ("status".data))] false = [false, false] := by decide

/-! ## Job-table lemmas -/

theorem placePID_spec (p : Nat) :
    ∀ t : List Nat,
      (∀ i, firstZero t = some i →
        t[i]? = some 0 ∧ (∀ j, j < i → t[j]? ≠ some 0) ∧
        placePID t p = some (t.set i p)) ∧
      (firstZero t = none → placePID t p = none) := by
  intro t
  induction t with
  | nil =>
    refine ⟨fun i hi => ?_, fun _ => rfl⟩
    simp [firstZero] at hi
  | cons x rest ih =>
    by_cases hx : x = 0
    · subst hx
      refine ⟨fun i hi => ?_, fun hn => ?_⟩
      · have : i = 0 := by
          simp [firstZero] at hi
          omega
        subst this
        refine ⟨by simp, fun j hj => absurd hj (by omega), ?_⟩
        simp [placePID]
      · simp [firstZero] at hn
    · refine ⟨fun i hi => ?_, fun hn => ?_⟩
      · have hmap : (firstZero rest).map (fun i => i + 1) = some i := by
          simpa [firstZero, hx] using hi
        rcases hk : firstZero rest with _ | k
        · rw [hk] at hmap; simp at hmap
        · rw [hk] at hmap
          simp at hmap
          subst hmap
          obtain ⟨h1, h2, h3⟩ := (ih.1 k hk)
          refine ⟨by simpa using h1, fun j hj => ?_, ?_⟩
          · cases j with
            | zero => simpa using hx
            | succ j2 =>
              have : j2 < k := by omega
              simpa using h2 j2 this
          · simp [placePID, hx, h3, List.set]
      · have : firstZero rest = none := by
          rcases hk : firstZero rest with _ | k
          · rfl
          · rw [firstZero, if_neg hx, hk] at hn
            simp at hn
        simp [placePID, hx, ih.2 this]

theorem scrubPIDArray_replicate : ∀ t : List Nat,
    scrubPIDArray t = List.replicate t.length 0 := by
  intro t
  induction t with
  | nil => rfl
  | cons x rest ih =>
    rw [List.length_cons, List.replicate_succ]
    show 0 :: scrubPIDArray rest = 0 :: List.replicate rest.length 0
    rw [ih]

theorem resolveBGPID_replicate_zero (done : Nat → Option Disposition) :
    ∀ k, resolveBGPID done (List.replicate k 0) = (List.replicate k 0, []) := by
  intro k
  induction k with
  | zero => rfl
  | succ n ih => simp [List.replicate, resolveBGPID, ih]

theorem reconcileN_replicate_zero (done : Nat → Option Disposition) :
    ∀ n k, reconcileN done n (List.replicate k 0) = (List.replicate k 0, []) := by
  intro n
  induction n with
  | zero => intro k; rfl
  | succ m ih =>
    intro k
    simp [reconcileN, resolveBGPID_replicate_zero, ih]

theorem resolveBGPID_zero_slot (done : Nat → Option Disposition) :
    ∀ (t : List Nat) (i : Nat), t[i]? = some 0 →
      ((resolveBGPID done t).1)[i]? = some 0 := by
  intro t
  induction t with
  | nil => intro i h; simp at h
  | cons p rest ih =>
    intro i h
    cases i with
    | zero =>
      simp at h
      subst h
      simp [resolveBGPID]
    | succ i2 =>
      simp at h
      have := ih i2 (by simpa using h)
      rcases hp : (p == 0 : Bool) with _ | _
      · simp at hp
        rcases hd : done p with _ | d <;>
          simp [resolveBGPID, hp, hd, this]
      · simp at hp
        simp [resolveBGPID, hp, this]

theorem resolveBGPID_report_src (done : Nat → Option Disposition) :
    ∀ (t : List Nat) (rep : Report), rep ∈ (resolveBGPID done t).2 →
      rep.pid ≠ 0 ∧ rep.pid ∈ t := by
  intro t
  induction t with
  | nil => intro rep h; simp [resolveBGPID] at h
  | cons p rest ih =>
    intro rep h
    by_cases hp : p = 0
    · rw [resolveBGPID, if_pos hp] at h
      obtain ⟨h1, h2⟩ := ih rep h
      exact ⟨h1, List.mem_cons_of_mem _ h2⟩
    · rw [resolveBGPID, if_neg hp] at h
      rcases hd : done p with _ | d
      · rw [hd] at h
        obtain ⟨h1, h2⟩ := ih rep h
        exact ⟨h1, List.mem_cons_of_mem _ h2⟩
      · rw [hd] at h
        rcases List.mem_cons.mp h with h0 | h0
        · subst h0; exact ⟨hp, List.mem_cons_self _ _⟩
        · obtain ⟨h1, h2⟩ := ih rep h0
          exact ⟨h1, List.mem_cons_of_mem _ h2⟩

/-- C7. Registering a background pid: with at least one empty slot,
`placePID` fills exactly the first empty slot and leaves every other slot
unchanged; with all `BGPID_ARR_SIZE = 20` slots occupied it fails fatally
(`perror` + `exit(1)`, modelled as `none`). -/
theorem C7_job_table_register (t : List Nat) (p : Nat)
    (_hlen : t.length = BGPID_ARR_SIZE) :
    (∀ i, firstZero t = some i →
      t[i]? = some 0 ∧ (∀ j, j < i → t[j]? ≠ some 0) ∧
      placePID t p = some (t.set i p)) ∧
    (firstZero t = none → placePID t p = none) ∧
    (0 ∈ t ↔ (firstZero t).isSome) := by
  refine ⟨(placePID_spec p t).1, (placePID_spec p t).2, ?_⟩
  clear _hlen
  induction t with
  | nil => simp [firstZero]
  | cons x rest ih =>
    by_cases hx : x = 0
    · subst hx; simp [firstZero]
    · simp [firstZero, hx, Option.isSome_map]
      constructor
      · intro h
        rcases h with h | h
        · exact absurd h.symm hx
        · exact ih.mp h
      · intro h
        exact Or.inr (ih.mpr h)

/-- C7 witness: on a concrete all-empty 20-slot table registration fills
slot 0; on a concrete fully occupied 20-slot table it fails. -/
theorem C7_job_table_register_witness :
    placePID (List.replicate 20 0) 5 = some ((List.replicate 20 0).set 0 5) ∧
    placePID (List.replicate 20 1) 5 = none :=
  ⟨((C7_job_table_register (List.replicate 20 0) 5 (by decide)).1 0 (by decide)).2.2,
   (C7_job_table_register (List.replicate 20 1) 5 (by decide)).2.1 (by decide)⟩

/-- C8. `scrubPIDArray` empties every slot; any number of reconciliation
passes over an empty table produces no output and leaves it empty; a
reconciliation pass never reports an empty slot (every report's pid is a
non-zero entry of the table) and never touches an empty slot. -/
theorem C8_reset_reconcile_empty :
    (∀ t : List Nat, scrubPIDArray t = List.replicate t.length 0) ∧
    (∀ (done : Nat → Option Disposition) (n k : Nat),
      reconcileN done n (List.replicate k 0) = (List.replicate k 0, [])) ∧
    (∀ (done : Nat → Option Disposition) (t : List Nat) (i : Nat),
      t[i]? = some 0 → ((resolveBGPID done t).1)[i]? = some 0) ∧
    (∀ (done : Nat → Option Disposition) (t : List Nat) (rep : Report),
      rep ∈ (resolveBGPID done t).2 → rep.pid ≠ 0 ∧ rep.pid ∈ t) :=
  ⟨scrubPIDArray_replicate, reconcileN_replicate_zero,
   resolveBGPID_zero_slot, resolveBGPID_report_src⟩

/-- C8 witness: concrete instances of the hypothesis-bearing conjuncts. -/
theorem C8_reset_reconcile_empty_witness :
    ((resolveBGPID (fun _ => some (Disposition.exited 0)) [0, 5]).1)[0]? = some 0 ∧
    ((⟨5, Disposition.exited 0⟩ : Report).pid ≠ 0 ∧
      (⟨5, Disposition.exited 0⟩ : Report).pid ∈ [0, 5]) :=
  ⟨C8_reset_reconcile_empty.2.2.1 (fun _ => some (Disposition.exited 0)) [0, 5] 0 (by decide),
   C8_reset_reconcile_empty.2.2.2 (fun _ => some (Disposition.exited 0)) [0, 5]
     ⟨5, Disposition.exited 0⟩ (by decide)⟩

/-! ## Session-loop flag lemmas -/

theorem dispatchBG_false (a0 : List Char) (bg b : Bool)
    (h : dispatchBG a0 bg = some b) : b = false := by
  unfold dispatchBG at h
  split at h
  · exact absurd h (by simp)
  · split at h
    · simpa [cleanupBG, statusShellBG] using h.symm
    · split at h
      · simpa [cleanupBG, cdShellBG] using h.symm
      · simpa [cleanupBG, execParentBG] using h.symm

/-- C10. Starting from the initial state (`background = 0` at program
start), the `background` flag observed at every `parseCommand` call of
the session loop is `0`: each dispatch path (`exit`, `status`, `cd`,
external command) clears the flag before the next iteration, for any
interleaving of `disallow_background` toggles between commands. -/
theorem C10_background_clear_at_parse (pidChars : List Char)
    (lines : List (Bool × List (List Char))) :
    (bgAtParses pidChars lines false).all (fun b => b == false) = true := by
  induction lines with
  | nil => rfl
  | cons l rest ih =>
    obtain ⟨dis, tokens⟩ := l
    rw [bgAtParses]
    rcases hp : parseCommand pidChars dis false tokens with _ | r
    · simp
    · rcases ha : r.args.head? with _ | a0
      · simp [ha]
      · rcases hd : dispatchBG a0 r.background with _ | bg2
        · simp [ha, hd]
        · have hb2 : bg2 = false := dispatchBG_false a0 r.background bg2 hd
          subst hb2
          simpa [ha, hd] using ih

/-! ## Parser lemmas -/

theorem parseLoop_nil (pidChars : List Char) (acc : ParseAcc) :
    parseLoop pidChars [] acc = acc := rfl

theorem parseLoop_cons_plain (pidChars t : List Char) (rest : List (List Char))
    (acc : ParseAcc) (hm : findMarker t = none) (h1 : t ≠ ['<']) (h2 : t ≠ ['>']) :
    parseLoop pidChars (t :: rest) acc =
      parseLoop pidChars rest { acc with args := acc.args ++ [ArgRef.str t] } := by
  cases rest with
  | nil =>
    conv_lhs => rw [parseLoop]
    rw [if_neg (by simp [hm]), if_neg h1, if_neg h2]
  | cons r rs =>
    conv_lhs => rw [parseLoop]
    rw [if_neg (by simp [hm]), if_neg h1, if_neg h2]

theorem parseLoop_cons_marker (pidChars t : List Char) (rest : List (List Char))
    (acc : ParseAcc) (pre : List Char) (hm : findMarker t = some pre) :
    parseLoop pidChars (t :: rest) acc =
      parseLoop pidChars rest
        { acc with args := acc.args ++ [ArgRef.pidBuf],
                   pidString := pre ++ pidChars } := by
  cases rest with
  | nil =>
    conv_lhs => rw [parseLoop]
    rw [if_pos (by simp [hm])]
    simp [hm]
  | cons r rs =>
    conv_lhs => rw [parseLoop]
    rw [if_pos (by simp [hm])]
    simp [hm]

theorem parseLoop_cons_lt (pidChars r : List Char) (rest2 : List (List Char))
    (acc : ParseAcc) :
    parseLoop pidChars (['<'] :: r :: rest2) acc =
      parseLoop pidChars rest2 { acc with redirIn := some r } := by
  conv_lhs => rw [parseLoop]
  rw [if_neg (by simp [findMarker]), if_pos rfl]

theorem parseLoop_lt_last (pidChars : List Char) (acc : ParseAcc) :
    parseLoop pidChars [['<']] acc = { acc with redirIn := none } := by
  conv_lhs => rw [parseLoop]
  rw [if_neg (by simp [findMarker]), if_pos rfl]

theorem parseLoop_cons_gt (pidChars r : List Char) (rest2 : List (List Char))
    (acc : ParseAcc) :
    parseLoop pidChars (['>'] :: r :: rest2) acc =
      parseLoop pidChars rest2 { acc with redirOut := some r } := by
  conv_lhs => rw [parseLoop]
  rw [if_neg (by simp [findMarker]), if_neg (by decide), if_pos rfl]

theorem parseLoop_gt_last (pidChars : List Char) (acc : ParseAcc) :
    parseLoop pidChars [['>']] acc = { acc with redirOut := none } := by
  conv_lhs => rw [parseLoop]
  rw [if_neg (by simp [findMarker]), if_neg (by decide), if_pos rfl]

theorem parseLoop_all_plain (pidChars : List Char) :
    ∀ (ts : List (List Char)) (acc : ParseAcc),
      (∀ t ∈ ts, findMarker t = none ∧ t ≠ ['<'] ∧ t ≠ ['>']) →
      parseLoop pidChars ts acc =
        { acc with args := acc.args ++ ts.map ArgRef.str } := by
  intro ts
  induction ts with
  | nil => intro acc _; simp [parseLoop_nil]
  | cons t rest ih =>
    intro acc h
    have ht := h t (List.mem_cons_self _ _)
    have hrest : ∀ x ∈ rest, findMarker x = none ∧ x ≠ ['<'] ∧ x ≠ ['>'] :=
      fun x hx => h x (List.mem_cons_of_mem _ hx)
    rw [parseLoop_cons_plain _ _ _ _ ht.1 ht.2.1 ht.2.2, ih _ hrest]
    simp [List.append_assoc]

theorem parseLoop_append_plain (pidChars : List Char) (t : List Char)
    (hm : findMarker t = none) (h1 : t ≠ ['<']) (h2 : t ≠ ['>']) :
    ∀ (ts : List (List Char)) (acc : ParseAcc),
      ts.getLast? ≠ some ['<'] → ts.getLast? ≠ some ['>'] →
      parseLoop pidChars (ts ++ [t]) acc =
        { parseLoop pidChars ts acc with
          args := (parseLoop pidChars ts acc).args ++ [ArgRef.str t] } := by
  have base : ∀ acc : ParseAcc,
      parseLoop pidChars ([] ++ [t]) acc =
        { parseLoop pidChars [] acc with
          args := (parseLoop pidChars [] acc).args ++ [ArgRef.str t] } := by
    intro acc
    rw [List.nil_append, parseLoop_cons_plain _ _ _ _ hm h1 h2]
    rfl
  have main : ∀ (n : Nat) (ts : List (List Char)) (acc : ParseAcc), ts.length ≤ n →
      ts.getLast? ≠ some ['<'] → ts.getLast? ≠ some ['>'] →
      parseLoop pidChars (ts ++ [t]) acc =
        { parseLoop pidChars ts acc with
          args := (parseLoop pidChars ts acc).args ++ [ArgRef.str t] } := by
    intro n
    induction n with
    | zero =>
      intro ts acc hlen _ _
      have hts : ts = [] := List.length_eq_zero.mp (Nat.le_zero.mp hlen)
      subst hts
      exact base acc
    | succ n ih =>
      intro ts acc hlen hL hG
      match ts with
      | [] => exact base acc
      | a :: rest =>
        have hrestL : rest.getLast? ≠ some ['<'] ∧ rest.getLast? ≠ some ['>'] := by
          cases rest with
          | nil => simp
          | cons b bs =>
            rw [List.getLast?_cons_cons] at hL hG
            exact ⟨hL, hG⟩
        rcases hfm : findMarker a with _ | pre
        · by_cases ha1 : a = ['<']
          · subst ha1
            match rest with
            | [] => simp at hL
            | r :: rest2 =>
              have hr2 : rest2.getLast? ≠ some ['<'] ∧ rest2.getLast? ≠ some ['>'] := by
                cases rest2 with
                | nil => simp
                | cons b bs =>
                  rw [List.getLast?_cons_cons, List.getLast?_cons_cons] at hL hG
                  exact ⟨hL, hG⟩
              rw [List.cons_append, List.cons_append, parseLoop_cons_lt]
              conv_rhs => rw [parseLoop_cons_lt]
              exact ih rest2 _ (by simp at hlen; omega) hr2.1 hr2.2
          · by_cases ha2 : a = ['>']
            · subst ha2
              match rest with
              | [] => simp at hG
              | r :: rest2 =>
                have hr2 : rest2.getLast? ≠ some ['<'] ∧ rest2.getLast? ≠ some ['>'] := by
                  cases rest2 with
                  | nil => simp
                  | cons b bs =>
                    rw [List.getLast?_cons_cons, List.getLast?_cons_cons] at hL hG
                    exact ⟨hL, hG⟩
                rw [List.cons_append, List.cons_append, parseLoop_cons_gt]
                conv_rhs => rw [parseLoop_cons_gt]
                exact ih rest2 _ (by simp at hlen; omega) hr2.1 hr2.2
            · rw [List.cons_append, parseLoop_cons_plain _ _ _ _ hfm ha1 ha2]
              conv_rhs => rw [parseLoop_cons_plain _ _ _ _ hfm ha1 ha2]
              exact ih rest _ (by simp at hlen; omega) hrestL.1 hrestL.2
        · rw [List.cons_append, parseLoop_cons_marker _ _ _ _ _ hfm]
          conv_rhs => rw [parseLoop_cons_marker _ _ _ _ _ hfm]
          exact ih rest _ (by simp at hlen; omega) hrestL.1 hrestL.2
  intro ts acc
  exact main ts.length ts acc (Nat.le_refl _)

theorem getLast?_map {α β : Type} (f : α → β) :
    ∀ l : List α, (l.map f).getLast? = (l.getLast?).map f := by
  intro l
  induction l with
  | nil => rfl
  | cons a rest ih =>
    cases rest with
    | nil => rfl
    | cons b bs =>
      rw [List.map_cons, List.map_cons, List.getLast?_cons_cons,
        List.getLast?_cons_cons, ← List.map_cons]
      exact ih

theorem findMarker_append :
    ∀ (pre suf : List Char), findMarker pre = none → pre.getLast? ≠ some '$' →
      findMarker (pre ++ '$' :: '$' :: suf) = some pre := by
  intro pre
  induction pre with
  | nil =>
    intro suf _ _
    rw [List.nil_append, findMarker, if_pos ⟨rfl, rfl⟩]
  | cons c cs ih =>
    intro suf h1 h2
    cases cs with
    | nil =>
      have hc : c ≠ '$' := by simpa using h2
      rw [List.cons_append, List.nil_append, findMarker,
        if_neg (by intro h; exact hc h.1), findMarker, if_pos ⟨rfl, rfl⟩]
      rfl
    | cons d ds =>
      have hnot : ¬(c = '$' ∧ d = '$') := by
        intro hcd
        rw [findMarker, if_pos hcd] at h1
        exact Option.noConfusion h1
      have hcs : findMarker (d :: ds) = none := by
        rw [findMarker, if_neg hnot] at h1
        exact Option.map_eq_none'.mp h1
      have hcs2 : (d :: ds).getLast? ≠ some '$' := by
        rwa [List.getLast?_cons_cons] at h2
      rw [List.cons_append, List.cons_append, findMarker, if_neg hnot]
      have := ih suf hcs hcs2
      rw [List.cons_append] at this
      rw [this]
      rfl

theorem parseCommand_no_amp (pidChars : List Char) (disallow bg0 : Bool)
    (ts : List (List Char)) (lastA : ArgRef)
    (h : (parseLoop pidChars ts initAcc).args.getLast? = some lastA)
    (hne : resolveRef (parseLoop pidChars ts initAcc).pidString lastA ≠ ['&']) :
    parseCommand pidChars disallow bg0 ts =
      some ⟨(parseLoop pidChars ts initAcc).args,
            (parseLoop pidChars ts initAcc).args.length,
            (parseLoop pidChars ts initAcc).redirIn,
            (parseLoop pidChars ts initAcc).redirOut,
            (parseLoop pidChars ts initAcc).pidString, bg0⟩ := by
  unfold parseCommand
  simp only [h]
  rw [if_neg hne]

theorem parseCommand_amp (pidChars : List Char) (disallow bg0 : Bool)
    (ts : List (List Char)) (lastA : ArgRef)
    (h : (parseLoop pidChars ts initAcc).args.getLast? = some lastA)
    (heq : resolveRef (parseLoop pidChars ts initAcc).pidString lastA = ['&']) :
    parseCommand pidChars disallow bg0 ts =
      some ⟨(parseLoop pidChars ts initAcc).args.dropLast,
            (parseLoop pidChars ts initAcc).args.length,
            (parseLoop pidChars ts initAcc).redirIn,
            (parseLoop pidChars ts initAcc).redirOut,
            (parseLoop pidChars ts initAcc).pidString,
            bg0 || !disallow⟩ := by
  unfold parseCommand
  simp only [h]
  rw [if_pos heq]

/-! ## Claim theorems for the parser -/

/-- C1.  The claimed invariant — every accepted (non-empty, non-comment)
line parses to `argCount ≥ 1` with in-bounds reads of `args[0]` and
`args[argCount - 1]` — fails on the code: the line `"<"` passes
`getCommand`'s acceptance test (`numChars > 1`, first char not `#`) and
is non-blank, yet `parseCommand` places nothing in `args` (`argCount = 0`)
and its final `strcmp(args[argCount - 1], "&")` reads `args[-1]`, out of
bounds (modelled by `none`); the whitespace-only line `" "` is likewise
accepted and parses to zero tokens with the same out-of-bounds read. -/
theorem C1_accepted_line_zero_args :
    acceptedLine ("<".data) = true ∧
    tokenize ("<".data) = [['<']] ∧
    parseCommand ['4','2'] false false (tokenize ("<".data)) = none ∧
    acceptedLine (" ".data) = true ∧
    tokenize (" ".data) = [] ∧
    parseCommand ['4','2'] false false (tokenize (" ".data)) = none := by decide

/-- C2.  The claim that a line whose last token is `<` (or `>`) is
rejected with a ParseError fails on the code: for `"cat <"` (and
`"cat >"`) `parseCommand` consumes the trailing operator, stores the NULL
`strtok` result as the redirection target (slot left unset), and proceeds
to build the command `["cat"]` with `argCount = 1` — no error of any kind
is raised. -/
theorem C2_trailing_redirect_not_rejected :
    parseCommand ['4','2'] false false (tokenize ("cat <".data)) =
      some ⟨[ArgRef.str ("cat".data)], 1, none, none, [], false⟩ ∧
    parseCommand ['4','2'] false false (tokenize ("cat >".data)) =
      some ⟨[ArgRef.str ("cat".data)], 1, none, none, [], false⟩ := by decide

/-- C3 counterexample.  The line `"echo $$"` contains no `<` token, no
`>` token and no trailing `&`, yet (with pid rendered `"42"`) the parsed
argument list is `["echo", "42"]`, not the whitespace-split token list
`["echo", "$$"]`: tokens containing the `$$` marker are expanded, not
copied verbatim. -/
theorem C3_cex_expansion_token :
    ((tokenize ("echo $$".data)).all
        (fun t => !(t == ['<']) && !(t == ['>']))) = true ∧
    (tokenize ("echo $$".data)).getLast? ≠ some ['&'] ∧
    (parseCommand ['4','2'] false false (tokenize ("echo $$".data))).map
        ParseResult.args = some ["echo".data, ['4','2']] ∧
    (parseCommand ['4','2'] false false (tokenize ("echo $$".data))).map
        ParseResult.args ≠ some (tokenize ("echo $$".data)) := by decide

/-- C3 (amended).  For every non-empty command line containing no `<`
token, no `>` token, no trailing `&` token, and no token containing the
`$$` marker, the argument list returned by `parseCommand` equals the
whitespace-split token list, verbatim and in order. -/
theorem C3_plain_split_verbatim (pidChars : List Char) (disallow bg0 : Bool)
    (line : List Char) (h0 : tokenize line ≠ [])
    (h1 : ∀ t ∈ tokenize line, findMarker t = none ∧ t ≠ ['<'] ∧ t ≠ ['>'])
    (h2 : (tokenize line).getLast? ≠ some ['&']) :
    parseCommand pidChars disallow bg0 (tokenize line) =
      some ⟨(tokenize line).map ArgRef.str, (tokenize line).length,
            none, none, [], bg0⟩ ∧
    (parseCommand pidChars disallow bg0 (tokenize line)).map ParseResult.args =
      some (tokenize line) := by
  have hloop := parseLoop_all_plain pidChars (tokenize line) initAcc h1
  obtain ⟨l, hl⟩ :=
    Option.isSome_iff_exists.mp (List.getLast?_isSome.mpr h0)
  have hgl : (parseLoop pidChars (tokenize line) initAcc).args.getLast? =
      some (ArgRef.str l) := by
    rw [hloop]
    show ((tokenize line).map ArgRef.str).getLast? = some (ArgRef.str l)
    rw [getLast?_map, hl]
    rfl
  have hlne : l ≠ ['&'] := fun he => h2 (by rw [hl, he])
  have hne : resolveRef (parseLoop pidChars (tokenize line) initAcc).pidString
      (ArgRef.str l) ≠ ['&'] := by
    simpa [resolveRef] using hlne
  have hmain := parseCommand_no_amp pidChars disallow bg0 (tokenize line)
    (ArgRef.str l) hgl hne
  rw [hloop] at hmain
  simp only [initAcc, List.nil_append, List.length_map] at hmain
  refine ⟨hmain, ?_⟩
  rw [hmain]
  have hcomp : resolveRef [] ∘ ArgRef.str = id := funext fun t => rfl
  simp [ParseResult.args, List.map_map, hcomp]

/-- C3 witness: the concrete line `"ls -l"` satisfies all hypotheses and
parses verbatim. -/
theorem C3_plain_split_verbatim_witness :
    (parseCommand ['4','2'] false false (tokenize ("ls -l".data))).map
        ParseResult.args = some (tokenize ("ls -l".data)) :=
  (C3_plain_split_verbatim ['4','2'] false false ("ls -l".data)
    (by decide) (by decide) (by decide)).2

/-- C4 counterexample.  In the line `"a < &"` the last token is exactly
`&`, background execution is allowed (`disallow_background = 0`), yet the
parsed command is NOT marked background-requested: the `&` is consumed as
the `<` redirection target, so the claimed "background-requested iff
allowed" equivalence fails at this input. -/
theorem C4_cex_amp_as_redirect_target :
    (tokenize ("a < &".data)).getLast? = some ['&'] ∧
    parseCommand ['4','2'] false false (tokenize ("a < &".data)) =
      some ⟨[ArgRef.str ['a']], 1, some ['&'], none, [], false⟩ := by decide

/-- C4 (amended).  For every command line whose last token is exactly `&`
and whose immediately preceding token is neither `<` nor `>` (so the `&`
is not consumed as a redirection target), with the `background` flag
clear at parse time: `parseCommand` removes the `&` from the argument
list in all cases (the surviving entries are exactly those produced by
the preceding tokens), and marks the command background-requested if and
only if background execution is currently allowed. -/
theorem C4_trailing_amp (pidChars : List Char) (disallow : Bool)
    (ts : List (List Char))
    (h1 : ts.getLast? ≠ some ['<']) (h2 : ts.getLast? ≠ some ['>']) :
    parseCommand pidChars disallow false (ts ++ [['&']]) =
      some ⟨(parseLoop pidChars ts initAcc).args,
            (parseLoop pidChars ts initAcc).args.length + 1,
            (parseLoop pidChars ts initAcc).redirIn,
            (parseLoop pidChars ts initAcc).redirOut,
            (parseLoop pidChars ts initAcc).pidString,
            !disallow⟩ := by
  have happ := parseLoop_append_plain pidChars ['&'] (by decide) (by decide)
    (by decide) ts initAcc h1 h2
  have hgl : (parseLoop pidChars (ts ++ [['&']]) initAcc).args.getLast? =
      some (ArgRef.str ['&']) := by
    rw [happ]
    exact List.getLast?_concat _
  have h := parseCommand_amp pidChars disallow false (ts ++ [['&']])
    (ArgRef.str ['&']) hgl rfl
  rw [happ] at h
  simpa [List.dropLast_concat] using h

/-- C4 witness: `"sleep 5 &"` with background allowed yields argument
entries `["sleep", "5"]` and `background = true` (and `argCount = 3`,
since the C code does not decrement `argCount` when stripping `&`). -/
theorem C4_trailing_amp_witness :
    parseCommand ['4','2'] false false (["sleep".data, ['5']] ++ [['&']]) =
      some ⟨(parseLoop ['4','2'] ["sleep".data, ['5']] initAcc).args,
            (parseLoop ['4','2'] ["sleep".data, ['5']] initAcc).args.length + 1,
            (parseLoop ['4','2'] ["sleep".data, ['5']] initAcc).redirIn,
            (parseLoop ['4','2'] ["sleep".data, ['5']] initAcc).redirOut,
            (parseLoop ['4','2'] ["sleep".data, ['5']] initAcc).pidString,
            !false⟩ :=
  C4_trailing_amp ['4','2'] false ["sleep".data, ['5']] (by decide) (by decide)

/-- C5.  PID expansion: a token containing `$$` is truncated at the first
occurrence of the marker and replaced by prefix ++ decimal-pid; the
remainder after `$$` is discarded.  Concretely, for `"echo hi$$there"`
with pid string `pidChars` the parsed argument list is
`["echo", "hi" ++ pidChars]`; and in general `strstr`'s prefix before the
first `$$` of a token `pre ++ "$$" ++ suf` is exactly `pre` whenever
`pre` itself contains no `$$` and does not end in `$`. -/
theorem C5_pid_expansion (pidChars : List Char) (disallow bg0 : Bool) :
    (parseCommand pidChars disallow bg0 (tokenize ("echo hi$$there".data))).map
        ParseResult.args = some ["echo".data, "hi".data ++ pidChars] ∧
    (∀ pre suf : List Char, findMarker pre = none → pre.getLast? ≠ some '$' →
      findMarker (pre ++ '$' :: '$' :: suf) = some pre) := by
  refine ⟨?_, findMarker_append⟩
  have htok : tokenize ("echo hi$$there".data) = ["echo".data, "hi$$there".data] := by
    decide
  have h1 : findMarker ("echo".data) = none := by decide
  have h2 : findMarker ("hi$$there".data) = some ("hi".data) := by decide
  have hloop : parseLoop pidChars ["echo".data, "hi$$there".data] initAcc =
      ⟨[ArgRef.str ("echo".data), ArgRef.pidBuf], none, none,
        "hi".data ++ pidChars⟩ := by
    rw [parseLoop_cons_plain _ _ _ _ h1 (by decide) (by decide),
      parseLoop_cons_marker _ _ _ _ _ h2, parseLoop_nil]
    rfl
  have hgl : (parseLoop pidChars ["echo".data, "hi$$there".data] initAcc).args.getLast? =
      some ArgRef.pidBuf := by
    rw [hloop]
    rfl
  have hne : resolveRef (parseLoop pidChars ["echo".data, "hi$$there".data]
      initAcc).pidString ArgRef.pidBuf ≠ ['&'] := by
    rw [hloop]
    show "hi".data ++ pidChars ≠ ['&']
    intro hcontra
    have := congrArg (fun l => l.head?) hcontra
    simp [show "hi".data = ['h', 'i'] from by decide] at this
  have h := parseCommand_no_amp pidChars disallow bg0 ["echo".data, "hi$$there".data]
    ArgRef.pidBuf hgl hne
  rw [htok, h, hloop]
  simp [ParseResult.args, resolveRef]

/-- C5 witness: the general prefix conjunct at `pre = "hi"`,
`suf = "there"`. -/
theorem C5_pid_expansion_witness :
    findMarker ("hi".data ++ '$' :: '$' :: "there".data) = some ("hi".data) :=
  (C5_pid_expansion ['4','2'] false false).2 ("hi".data) ("there".data)
    (by decide) (by decide)

/-- C6.  All `$$`-expanded tokens of a line share the single global
`pidString` scratch buffer, so their argument entries all dereference to
the same value — only the last expansion on the line is visible.
Concretely, `"echo a$$x b$$y"` parses to
`["echo", "b" ++ pid, "b" ++ pid]`: the earlier expansion `"a" ++ pid` is
silently overwritten. -/
theorem C6_single_scratch_buffer :
    (∀ (pidChars : List Char) (disallow bg0 : Bool) (ts : List (List Char))
        (r : ParseResult), parseCommand pidChars disallow bg0 ts = some r →
        ∀ i j : Nat, r.argRefs[i]? = some ArgRef.pidBuf →
          r.argRefs[j]? = some ArgRef.pidBuf → r.args[i]? = r.args[j]?) ∧
    (∀ (pidChars : List Char) (disallow bg0 : Bool),
      (parseCommand pidChars disallow bg0 (tokenize ("echo a$$x b$$y".data))).map
          ParseResult.args =
        some ["echo".data, 'b' :: pidChars, 'b' :: pidChars]) := by
  constructor
  · intro pidChars disallow bg0 ts r _ i j hi hj
    unfold ParseResult.args
    rw [List.getElem?_map, List.getElem?_map, hi, hj]
  · intro pidChars disallow bg0
    have htok : tokenize ("echo a$$x b$$y".data) =
        ["echo".data, "a$$x".data, "b$$y".data] := by decide
    have h1 : findMarker ("echo".data) = none := by decide
    have h2 : findMarker ("a$$x".data) = some ['a'] := by decide
    have h3 : findMarker ("b$$y".data) = some ['b'] := by decide
    have hloop : parseLoop pidChars ["echo".data, "a$$x".data, "b$$y".data] initAcc =
        ⟨[ArgRef.str ("echo".data), ArgRef.pidBuf, ArgRef.pidBuf], none, none,
          ['b'] ++ pidChars⟩ := by
      rw [parseLoop_cons_plain _ _ _ _ h1 (by decide) (by decide),
        parseLoop_cons_marker _ _ _ _ _ h2,
        parseLoop_cons_marker _ _ _ _ _ h3, parseLoop_nil]
      rfl
    have hgl : (parseLoop pidChars ["echo".data, "a$$x".data, "b$$y".data]
        initAcc).args.getLast? = some ArgRef.pidBuf := by
      rw [hloop]
      rfl
    have hne : resolveRef (parseLoop pidChars ["echo".data, "a$$x".data, "b$$y".data]
        initAcc).pidString ArgRef.pidBuf ≠ ['&'] := by
      rw [hloop]
      show ['b'] ++ pidChars ≠ ['&']
      intro hcontra
      have := congrArg (fun l => l.head?) hcontra
      simp at this
    have h := parseCommand_no_amp pidChars disallow bg0
      ["echo".data, "a$$x".data, "b$$y".data] ArgRef.pidBuf hgl hne
    rw [htok, h, hloop]
    simp [ParseResult.args, resolveRef]

/-- C6 witness: the aliasing conjunct applied to the concrete parse of
`"echo a$$x b$$y"` with pid string `"42"`: entries 1 and 2 dereference
equal. -/
theorem C6_single_scratch_buffer_witness :
    ({ argRefs := [ArgRef.str ("echo".data), ArgRef.pidBuf, ArgRef.pidBuf],
       argCount := 3, redirIn := none, redirOut := none,
       pidString := ['b','4','2'], background := false } : ParseResult).args[1]? =
    ({ argRefs := [ArgRef.str ("echo".data), ArgRef.pidBuf, ArgRef.pidBuf],
       argCount := 3, redirIn := none, redirOut := none,
       pidString := ['b','4','2'], background := false } : ParseResult).args[2]? :=
  C6_single_scratch_buffer.1 ['4','2'] false false
    (tokenize ("echo a$$x b$$y".data)) _ (by decide) 1 2 (by decide) (by decide)

/-! ## Session-loop ordering lemmas (C9) -/

theorem resolveBGPID_clean (done : Nat → Option Disposition) :
    ∀ t : List Nat,
      ((resolveBGPID done t).1).all (fun p => p == 0 || (done p).isNone) = true := by
  intro t
  induction t with
  | nil => rfl
  | cons p rest ih =>
    by_cases hp : p = 0
    · subst hp
      simp only [resolveBGPID, if_pos rfl]
      simpa using ih
    · rcases hd : done p with _ | d
      · simp only [resolveBGPID, if_neg hp, hd]
        simp only [List.all_cons, Bool.and_eq_true]
        exact ⟨by simp [hd], ih⟩
      · simp only [resolveBGPID, if_neg hp, hd]
        simp only [List.all_cons, Bool.and_eq_true]
        exact ⟨by simp, ih⟩

theorem resolveBGPID_reports_done (done : Nat → Option Disposition) :
    ∀ (t : List Nat) (p : Nat) (d : Disposition), p ∈ t → p ≠ 0 → done p = some d →
      (⟨p, d⟩ : Report) ∈ (resolveBGPID done t).2 := by
  intro t
  induction t with
  | nil => intro p d hmem; exact absurd hmem (List.not_mem_nil p)
  | cons q rest ih =>
    intro p d hmem hp hd
    rcases List.mem_cons.mp hmem with h0 | h0
    · subst h0
      rw [resolveBGPID, if_neg hp, hd]
      exact List.mem_cons_self _ _
    · by_cases hq : q = 0
      · rw [resolveBGPID, if_pos hq]
        exact ih p d h0 hp hd
      · rw [resolveBGPID, if_neg hq]
        rcases hq2 : done q with _ | d2
        · exact ih p d h0 hp hd
        · exact List.mem_cons_of_mem _ (ih p d h0 hp hd)

theorem occursBefore_of_mem (x : Ev) :
    ∀ (A B : List Ev), x ∈ A → Ev.prompt ∉ A →
      occursBefore x Ev.prompt (A ++ Ev.prompt :: B) = true := by
  intro A
  induction A with
  | nil => intro B hmem; exact absurd hmem (List.not_mem_nil x)
  | cons e A2 ih =>
    intro B hmem hnp
    rw [List.cons_append, occursBefore]
    by_cases hex : e = x
    · rw [if_pos hex]
      simp
    · rw [if_neg hex, if_neg (by
        intro he
        exact hnp (he ▸ List.mem_cons_self _ _))]
      exact ih B (List.mem_cons.mp hmem |>.resolve_left (fun h => hex h.symm))
        (fun h => hnp (List.mem_cons_of_mem _ h))

theorem prompt_not_in_pre (done : Nat → Option Disposition)
    (inform disallow : Bool) (table : List Nat) :
    Ev.prompt ∉ backgroundInformEv inform disallow ++
      ((resolveBGPID done table).2.map (fun rp => Ev.report rp.pid rp.disp)) := by
  intro h
  rcases List.mem_append.mp h with h1 | h1
  · unfold backgroundInformEv at h1
    rcases inform with _ | _
    · simp at h1
    · simp at h1
  · obtain ⟨rp, _, hrp⟩ := List.mem_map.mp h1
    exact Ev.noConfusion hrp

theorem getCommandLoop_promptTables_clean (done : Nat → Option Disposition)
    (disallow : Bool) :
    ∀ (reads : List (Option (List Char))) (inform : Bool) (table : List Nat),
      ((getCommandLoop done disallow reads inform table).promptTables).all
        (fun t => t.all (fun p => p == 0 || (done p).isNone)) = true := by
  intro reads
  induction reads with
  | nil => intro inform table; rfl
  | cons r rest ih =>
    intro inform table
    rcases r with _ | line
    · simp only [getCommandLoop]
      simp only [List.all_cons, Bool.and_eq_true]
      exact ⟨resolveBGPID_clean done table, ih false _⟩
    · simp only [getCommandLoop]
      by_cases hacc : acceptedLine line = true
      · rw [if_pos hacc]
        simp only [List.all_cons, List.all_nil, Bool.and_true]
        exact resolveBGPID_clean done table
      · rw [if_neg hacc]
        simp only [List.all_cons, Bool.and_eq_true]
        exact ⟨resolveBGPID_clean done table, ih false _⟩

/-- C9.  In every cycle of the `getCommand` loop the pending mode-change
notice is printed first, every completed background job of the cycle's
entering table is reported before the prompt, and the job table in force
at any displayed prompt contains no completed-but-unreported job — so a
prompt is never displayed while a finished background job's report from a
prior cycle is still pending. -/
theorem C9_reconcile_before_prompt (done : Nat → Option Disposition)
    (inform disallow : Bool) (table : List Nat) :
    (inform = true → (cycleEvents done inform disallow table).head? =
        some (Ev.notice disallow)) ∧
    (∀ p d, p ∈ table → p ≠ 0 → done p = some d →
      occursBefore (Ev.report p d) Ev.prompt
        (cycleEvents done inform disallow table) = true) ∧
    (∀ (reads : List (Option (List Char))) (inform0 : Bool) (table0 : List Nat),
      ((getCommandLoop done disallow reads inform0 table0).promptTables).all
        (fun t => t.all (fun p => p == 0 || (done p).isNone)) = true) := by
  refine ⟨fun hi => ?_, fun p d hmem hp hd => ?_, fun reads inform0 table0 =>
    getCommandLoop_promptTables_clean done disallow reads inform0 table0⟩
  · subst hi
    rfl
  · have hrep : Ev.report p d ∈ backgroundInformEv inform disallow ++
        ((resolveBGPID done table).2.map (fun rp => Ev.report rp.pid rp.disp)) :=
      List.mem_append.mpr (Or.inr (List.mem_map.mpr
        ⟨⟨p, d⟩, resolveBGPID_reports_done done table p d hmem hp hd, rfl⟩))
    have hshape : cycleEvents done inform disallow table =
        (backgroundInformEv inform disallow ++
          ((resolveBGPID done table).2.map (fun rp => Ev.report rp.pid rp.disp))) ++
          Ev.prompt :: [Ev.readAttempt] := by
      unfold cycleEvents
      rw [List.append_assoc]
    rw [hshape]
    exact occursBefore_of_mem _ _ _ hrep (prompt_not_in_pre done inform disallow table)

/-- C9 witness: a concrete cycle with one completed background job (pid 7)
reports it before the prompt, and with the notice flag set prints the
notice first. -/
theorem C9_reconcile_before_prompt_witness :
    occursBefore (Ev.report 7 (Disposition.exited 0)) Ev.prompt
      (cycleEvents (fun p => if p = 7 then some (Disposition.exited 0) else none)
        true false [7]) = true ∧
    (cycleEvents (fun p => if p = 7 then some (Disposition.exited 0) else none)
        true false [7]).head? = some (Ev.notice false) :=
  ⟨(C9_reconcile_before_prompt
      (fun p => if p = 7 then some (Disposition.exited 0) else none)
      true false [7]).2.1 7 (Disposition.exited 0) (by decide) (by decide) (by decide),
   (C9_reconcile_before_prompt
      (fun p => if p = 7 then some (Disposition.exited 0) else none)
      true false [7]).1 rfl⟩

end Tinysh
